import Mathlib

/-!
Verification of the review filtering / name-extraction pipeline of
GReviewSignals (src/main.py, class GoogleBusinessProfileAnalyzer).

The Python records are JSON dictionaries; the fields the code reads are
modelled as optional values (a missing key is `none`).  The external
collaborators (the ISO-8601 parser `datetime.fromisoformat` and the spaCy
entity-recognition engine) are modelled as function parameters, mirroring
their role as library calls outside the repository.  Python string methods
`upper`/`strip` are embedded at the ASCII level, which is the fragment the
program exercises (ratings are drawn from a five-value uppercase
enumeration and recognized names are English text).
-/

set_option maxHeartbeats 1000000

namespace GReviewSignals

/-! ### Data model: review records -/

/-- Nested reviewer object of a review record (fields read by the code:
displayName, profilePhotoUrl). -/
structure Reviewer where
  displayName : Option String
  profilePhotoUrl : Option String
deriving DecidableEq

/-- Nested reviewReply object of a review record (field read: comment). -/
structure ReviewReply where
  comment : Option String
deriving DecidableEq

/-- A review record: the JSON dictionary fields accessed by main.py,
each optional because dictionary keys may be absent. -/
structure Review where
  reviewId : Option String
  name : Option String
  starRating : Option String
  comment : Option String
  createTime : Option String
  updateTime : Option String
  reviewer : Option Reviewer
  reviewReply : Option ReviewReply
deriving DecidableEq

/-- The record with every field absent. -/
def emptyReview : Review := ⟨none, none, none, none, none, none, none, none⟩

/-! ### Embedding of the Python string methods used by the code -/

/-- Python `str.upper` on one character, ASCII fragment: a lowercase ASCII
letter (codepoint 97..122) is shifted down by 32, everything else kept. -/
def pyUpperChar (c : Char) : Char :=
  if 97 ≤ c.toNat ∧ c.toNat ≤ 122 then Char.ofNat (c.toNat - 32) else c

/-- Python `str.upper`, applied characterwise. -/
def pyUpper (s : String) : String := ⟨s.data.map pyUpperChar⟩

/-- ASCII whitespace, the fragment of Python `str.strip`'s default set
exercised by the program. -/
def isPySpace (c : Char) : Bool :=
  c == ' ' || c == '\t' || c == '\n' || c == '\r'

/-- Python `str.strip`: drop leading and trailing whitespace. -/
def pyStrip (s : String) : String :=
  ⟨((s.data.dropWhile isPySpace).reverse.dropWhile isPySpace).reverse⟩

/-! ### Filter engine (filter_reviews, src/main.py lines 120-160) -/

/-- The two components of a parsed timestamp that filter_reviews reads
(`dt.year` and `dt.month` of a Python datetime). -/
structure PyDateTime where
  year : Int
  month : Int
deriving DecidableEq

/-- Truthiness of the `star_ratings` argument: Python's `if star_ratings:`
is true exactly for a present, non-empty list. -/
def starRatingsActive : Option (List String) → Bool
  | some ss => !ss.isEmpty
  | none => false

/-- Line 140: `review.get("starRating", "").upper()`. -/
def normalizedRating (review : Review) : String :=
  pyUpper (review.starRating.getD "")

/-- Lines 139-142: when the rating filter is active, keep the review only
if its normalized rating is a member of the supplied list. -/
def ratingPasses (star_ratings : Option (List String)) (review : Review) : Bool :=
  if starRatingsActive star_ratings then
    decide (normalizedRating review ∈ star_ratings.getD [])
  else true

/-- Lines 145-156: the date filter.  `parse` stands for
`datetime.fromisoformat`; it is applied to the timestamp after replacing
every "Z" with "+00:00".  An absent or empty (falsy) timestamp skips the
whole check; a failed parse rejects the review; otherwise year and month
must match whenever supplied. -/
def datePasses (parse : String → Option PyDateTime)
    (year month : Option Int) (review : Review) : Bool :=
  if year.isSome || month.isSome then
    match review.updateTime with
    | none => true
    | some update_time =>
      if update_time = "" then true
      else
        match parse (update_time.replace "Z" "+00:00") with
        | none => false
        | some dt =>
          (match year with
           | some y => decide (dt.year = y)
           | none => true) &&
          (match month with
           | some m => decide (dt.month = m)
           | none => true)
  else true

/-- The whole per-review predicate of the loop body (the chain of
`continue`s is a conjunction: rating check, then date check). -/
def reviewPasses (parse : String → Option PyDateTime)
    (year month : Option Int) (star_ratings : Option (List String))
    (review : Review) : Bool :=
  ratingPasses star_ratings review && datePasses parse year month review

/-- filter_reviews (src/main.py lines 120-160): keep, in order, the
reviews passing both checks. -/
def filter_reviews (parse : String → Option PyDateTime) (reviews : List Review)
    (year month : Option Int) (star_ratings : Option (List String)) : List Review :=
  match reviews with
  | [] => []
  | review :: rest =>
      if reviewPasses parse year month star_ratings review then
        review :: filter_reviews parse rest year month star_ratings
      else
        filter_reviews parse rest year month star_ratings

/-- A stand-in for the external ISO parser used to state concrete
instances: it rejects every string. -/
def parseStub : String → Option PyDateTime := fun _ => none

/-- A stand-in external parser that accepts every string as August 2025. -/
def parseStubAug2025 : String → Option PyDateTime := fun _ => some ⟨2025, 8⟩

/-- Does a string contain an ASCII lowercase letter? -/
def hasLowerAsciiChar (s : String) : Bool :=
  s.data.any (fun c => 97 ≤ c.toNat && c.toNat ≤ 122)

/-! ### Name extractor (extract_person_names, src/main.py lines 162-192) -/

/-- An entity span returned by the recognition engine: its surface text
and its label (the code keeps only label "PERSON"). -/
structure Ent where
  text : String
  label_ : String
deriving DecidableEq

/-- Line 184: `review.get("name", review.get("reviewId", "unknown"))`. -/
def resolveReviewId (review : Review) : String :=
  match review.name with
  | some v => v
  | none => review.reviewId.getD "unknown"

/-- Line 179: `review.get("comment", "")`. -/
def getComment (review : Review) : String := review.comment.getD ""

/-- Line 188: `name_to_review_ids[key].add(review_id)` on a defaultdict of
sets, modelled as an association list from name to the set of contributing
review identifiers; the first entry with the key is updated, a fresh key is
appended. -/
def addId : List (String × Finset String) → String → String → List (String × Finset String)
  | [], key, review_id => [(key, {review_id})]
  | (n, s) :: rest, key, review_id =>
      if n = key then (n, insert review_id s) :: rest
      else (n, s) :: addId rest key review_id

/-- Lines 186-188: the loop over `doc.ents`, inserting the stripped text of
every PERSON-labelled span with this review's identifier. -/
def processEnts (review_id : String) (ents : List Ent)
    (tbl : List (String × Finset String)) : List (String × Finset String) :=
  ents.foldl
    (fun t ent =>
      if ent.label_ = "PERSON" then addId t (pyStrip ent.text) review_id else t)
    tbl

/-- Lines 178-188: one iteration of the review loop — an empty (or absent)
comment is skipped, otherwise the engine runs on the comment and its spans
are accumulated. -/
def processReview (nlp : String → List Ent)
    (tbl : List (String × Finset String)) (review : Review) :
    List (String × Finset String) :=
  if getComment review = "" then tbl
  else processEnts (resolveReviewId review) (nlp (getComment review)) tbl

/-- extract_person_names (src/main.py lines 162-192).  `nlp` is the
loaded spaCy engine, abstracted to a function from a comment to its entity
spans; `none` means the engine was never loaded, in which case the code
prints an error and returns the empty dictionary (lines 172-174).  The
final dictionary maps each name to the size of its set of contributing
review identifiers (line 191). -/
def extract_person_names (nlp : Option (String → List Ent))
    (reviews : List Review) : List (String × Nat) :=
  match nlp with
  | none => []
  | some f =>
      (reviews.foldl (fun tbl review => processReview f tbl review) []).map
        (fun p => (p.1, p.2.card))

/-- Whether a span list contains a PERSON-labelled span whose stripped
text is `key`. -/
def entsYield (ents : List Ent) (key : String) : Bool :=
  ents.any (fun ent => decide (ent.label_ = "PERSON") && decide (pyStrip ent.text = key))

/-- Whether running the engine on a review's comment yields `key` as a
(stripped) PERSON-labelled span — the reviews skipped for an empty comment
yield nothing. -/
def yieldsName (f : String → List Ent) (key : String) (review : Review) : Bool :=
  decide (getComment review ≠ "") && entsYield (f (getComment review)) key

/-- The set of distinct resolved identifiers of the reviews of `l` whose
comment yields `key`. -/
def idSet (f : String → List Ent) (key : String) (l : List Review) : Finset String :=
  ((l.filter (yieldsName f key)).map resolveReviewId).toFinset

/-- First-match lookup in the accumulation table, with the defaultdict's
empty set as default. -/
def lookupSet : List (String × Finset String) → String → Finset String
  | [], _ => ∅
  | (n, s) :: rest, key => if n = key then s else lookupSet rest key

/-- The keys of the accumulation table. -/
def tableKeys (tbl : List (String × Finset String)) : List String :=
  tbl.map Prod.fst

/-- A stand-in recognition engine for concrete instances: every text
yields the single span "John" labelled PERSON. -/
def nlpStub : String → List Ent := fun _ => [⟨"John", "PERSON"⟩]

/-- A concrete review used in concrete instances: a comment and a
reviewId, everything else absent. -/
def wReview : Review :=
  ⟨some "r1", none, none, some "Thanks John!", none, none, none, none⟩

/-! ### Review store (load_reviews, src/main.py lines 76-118) -/

/-- The JSON values a decoded review file can hold. -/
inductive Json where
  | obj : List (String × Json) → Json
  | arr : List Json → Json
  | str : String → Json
  | num : Int → Json
  | bool : Bool → Json
  | null : Json

/-- Key lookup in a decoded JSON object (Python dict keys are unique; the
first binding is the value). -/
def jLookup : List (String × Json) → String → Option Json
  | [], _ => none
  | (k, v) :: rest, key => if k = key then some v else jLookup rest key

/-- Python iteration as used by `list.extend`: a list yields its elements,
a string its one-character strings, a dict its keys; numbers, booleans and
null are not iterable (TypeError). -/
def pyIterate : Json → Option (List Json)
  | .arr l => some l
  | .str s => some (s.data.map (fun c => .str (String.singleton c)))
  | .obj fields => some (fields.map (fun p => .str p.1))
  | _ => none

/-- Lines 100-111: fold one decoded file into the accumulated review list.
A dict with a "reviews" key extends with that value, a dict without the
key is appended as a single review, a list extends with its elements, and
any other decoded value falls through both isinstance checks and
contributes nothing.  `none` models an uncaught TypeError from extending
with a non-iterable "reviews" value. -/
def loadFile (acc : List Json) : Json → Option (List Json)
  | .obj fields =>
      match jLookup fields "reviews" with
      | some v => (pyIterate v).map (fun l => acc ++ l)
      | none => some (acc ++ [.obj fields])
  | .arr l => some (acc ++ l)
  | _ => some acc

/-- load_reviews (src/main.py lines 76-118) over the already-decoded
contents of the discovered files: accumulate every file into one flat
list and return it together with its length (the function's return
value). -/
def load_reviews (files : List Json) : Option (List Json × Nat) :=
  (files.foldlM loadFile []).map (fun l => (l, l.length))

/-- The contribution of one well-shaped file to the flat list. -/
def fileContribution : Json → List Json
  | .obj fields =>
      match jLookup fields "reviews" with
      | some (.arr l) => l
      | some _ => []
      | none => [.obj fields]
  | .arr l => l
  | _ => []

/-- The three on-disk shapes the spec describes: an object whose "reviews"
field holds a list, an object without a "reviews" field, or a bare list. -/
def goodShape : Json → Bool
  | .obj fields =>
      match jLookup fields "reviews" with
      | some (.arr _) => true
      | some _ => false
      | none => true
  | .arr _ => true
  | _ => false

/-- Concrete decoded files for concrete instances: one object file with a
"reviews" list and one bare-list file. -/
def wFiles : List Json :=
  [.obj [("reviews", .arr [.str "a", .str "b"])], .arr [.str "c"]]

/-! ### Reporter (export functions, src/main.py lines 216-307) -/

/-- Python's stable sort with key `-count` (lines 291 and 301): mergeSort
by non-increasing count. -/
def sortedNameCounts (name_counts : List (String × Nat)) : List (String × Nat) :=
  name_counts.mergeSort (fun a b => b.2 ≤ a.2)

/-- export_name_analysis_to_csv (src/main.py lines 272-307) modelled at
the level of the data rows it writes: an empty mapping writes no file
(lines 280-282), otherwise the rows are the (person_name, mention_count)
pairs sorted by descending count. -/
def export_name_analysis_to_csv (name_counts : List (String × Nat)) :
    Option (List (String × Nat)) :=
  if name_counts.isEmpty then none
  else some (sortedNameCounts name_counts)

/-- One row of the review export, with the fixed column set of lines
252-253. -/
structure ReviewRow where
  review_id : String
  reviewer_name : String
  star_rating : String
  comment : String
  create_time : String
  update_time : String
  reviewer_photo_url : String
  review_reply : String
deriving DecidableEq

/-- Lines 257-268: build one CSV row from a review record, with the
code's defaults for absent fields. -/
def buildReviewRow (review : Review) : ReviewRow :=
  let reviewer := review.reviewer.getD ⟨none, none⟩
  ⟨review.reviewId.getD (review.name.getD ""),
   reviewer.displayName.getD "Anonymous",
   review.starRating.getD "",
   review.comment.getD "",
   review.createTime.getD "",
   review.updateTime.getD "",
   reviewer.profilePhotoUrl.getD "",
   match review.reviewReply with
   | some rep => rep.comment.getD ""
   | none => ""⟩

/-- export_reviews_to_csv (src/main.py lines 216-268) modelled at the
level of the data rows it writes: an empty list writes no file (lines
224-226), otherwise one row per record, in order. -/
def export_reviews_to_csv (reviews : List Review) : Option (List ReviewRow) :=
  if reviews.isEmpty then none
  else some (reviews.map buildReviewRow)

/-! ### Basic lemmas about the filter engine -/

/-- The review loop is a stable filter by the per-review predicate. -/
theorem filter_reviews_eq_filter (parse : String → Option PyDateTime)
    (reviews : List Review) (year month : Option Int)
    (star_ratings : Option (List String)) :
    filter_reviews parse reviews year month star_ratings =
      reviews.filter (reviewPasses parse year month star_ratings) := by
  induction reviews with
  | nil => rfl
  | cons r rest ih =>
      by_cases h : reviewPasses parse year month star_ratings r
      · simp [filter_reviews, List.filter, h, ih]
      · simp [filter_reviews, List.filter, h, ih]

/-- With no rating filter the rating check accepts everything. -/
theorem ratingPasses_none (review : Review) : ratingPasses none review = true := rfl

/-- With neither year nor month the date check accepts everything. -/
theorem datePasses_none (parse : String → Option PyDateTime) (review : Review) :
    datePasses parse none none review = true := rfl

/-- Claim C4 — filter_reviews with no year, no month and no rating set
returns the input list itself, same records in the same order. -/
theorem filter_reviews_identity (parse : String → Option PyDateTime)
    (reviews : List Review) :
    filter_reviews parse reviews none none none = reviews := by
  rw [filter_reviews_eq_filter]
  apply List.filter_eq_self.mpr
  intro r _
  simp [reviewPasses, ratingPasses_none, datePasses_none]

/-- Claim C5 — for every combination of criteria the output of
filter_reviews is a subsequence of the input: every surviving record
occurs in the input and relative order is preserved, with no duplication
(stable filter). -/
theorem filter_reviews_sublist (parse : String → Option PyDateTime)
    (reviews : List Review) (year month : Option Int)
    (star_ratings : Option (List String)) :
    (filter_reviews parse reviews year month star_ratings).Sublist reviews := by
  rw [filter_reviews_eq_filter]
  exact List.filter_sublist reviews

/-- Claim C1, counterexample — a record with an absent update timestamp is
NOT excluded while a year filter is active: the code's `if update_time:`
guard skips the whole date check for a falsy timestamp, so the record
falls through to the append. -/
theorem missing_timestamp_survives_date_filter :
    emptyReview ∈ filter_reviews parseStub [emptyReview] (some 2025) none none := by
  decide

/-- Claim C1 as amended — under an active date filter (year or month
supplied): a record whose update timestamp is absent or empty survives the
date filter unconditionally; a record whose present, non-empty timestamp
fails to parse (after replacing "Z" with "+00:00") is excluded; and a
record with a parseable timestamp survives iff its year equals the
supplied year (when supplied) and its month equals the supplied month
(when supplied). -/
theorem filter_reviews_date_filter (parse : String → Option PyDateTime)
    (reviews : List Review) (year month : Option Int) (r : Review)
    (hactive : year.isSome || month.isSome) :
    (r.updateTime = none →
        (r ∈ filter_reviews parse reviews year month none ↔ r ∈ reviews))
    ∧ (r.updateTime = some "" →
        (r ∈ filter_reviews parse reviews year month none ↔ r ∈ reviews))
    ∧ (∀ ts, r.updateTime = some ts → ts ≠ "" →
        parse (ts.replace "Z" "+00:00") = none →
        r ∉ filter_reviews parse reviews year month none)
    ∧ (∀ ts dt, r.updateTime = some ts → ts ≠ "" →
        parse (ts.replace "Z" "+00:00") = some dt →
        (r ∈ filter_reviews parse reviews year month none ↔
          r ∈ reviews ∧ (∀ y, year = some y → dt.year = y)
            ∧ (∀ m, month = some m → dt.month = m))) := by
  have hmem : ∀ r' : Review, r' ∈ filter_reviews parse reviews year month none ↔
      r' ∈ reviews ∧ datePasses parse year month r' = true := by
    intro r'
    rw [filter_reviews_eq_filter, List.mem_filter]
    simp [reviewPasses, ratingPasses_none]
  refine ⟨?_, ?_, ?_, ?_⟩
  · intro hnone
    rw [hmem]
    simp [datePasses, hactive, hnone]
  · intro hempty
    rw [hmem]
    simp [datePasses, hactive, hempty]
  · intro ts hts hne hparse hmem'
    rw [hmem] at hmem'
    rw [datePasses] at hmem'
    simp only [hactive, if_true, hts, hne, if_neg, hparse] at hmem'
    simp at hmem'
  · intro ts dt hts hne hparse
    rw [hmem]
    rw [datePasses]
    simp only [hactive, if_true, hts, if_neg hne, hparse]
    cases year with
    | none =>
        cases month with
        | none => simp at hactive
        | some m => simp [eq_comm]
    | some y =>
        cases month with
        | none => simp [eq_comm]
        | some m =>
            simp only [Bool.and_eq_true, decide_eq_true_eq, Option.some.injEq,
              forall_eq', and_assoc]

/-- Claim C1 amended, concrete instance — with a year filter of 2025
active, the record with every field absent survives the date filter. -/
theorem filter_reviews_date_filter_instance :
    (((some 2025 : Option Int)).isSome || ((none : Option Int)).isSome) = true
    ∧ (emptyReview ∈ filter_reviews parseStub [emptyReview] (some 2025) none none ↔
        emptyReview ∈ [emptyReview]) :=
  ⟨by decide,
   (filter_reviews_date_filter parseStub [emptyReview] (some 2025) none emptyReview
      (by decide)).1 rfl⟩

/-- Claim C3, counterexample — a record with no starRating field DOES
match the non-empty rating filter consisting of the empty string, because
its normalized rating is the empty string. -/
theorem missing_rating_matches_empty_label :
    filter_reviews parseStub [emptyReview] none none (some [""]) = [emptyReview] := by
  decide

/-- Claim C3 as amended — for a supplied non-empty rating list S: a
surviving record's normalized rating (upper-cased, empty string when the
field is absent) is a member of S; a record missing the rating field never
survives when S does not contain the empty string; and when only the
rating filter is active, membership of the normalized rating in S is also
sufficient. -/
theorem filter_reviews_rating_filter (parse : String → Option PyDateTime)
    (reviews : List Review) (year month : Option Int) (S : List String)
    (r : Review) (hS : S ≠ []) :
    (r ∈ filter_reviews parse reviews year month (some S) →
        normalizedRating r ∈ S)
    ∧ (r.starRating = none → ("" : String) ∉ S →
        r ∉ filter_reviews parse reviews year month (some S))
    ∧ (r ∈ filter_reviews parse reviews none none (some S) ↔
        r ∈ reviews ∧ normalizedRating r ∈ S) := by
  have hactive : starRatingsActive (some S) = true := by
    cases S with
    | nil => exact absurd rfl hS
    | cons a l => rfl
  have hrating : ∀ r' : Review,
      ratingPasses (some S) r' = true ↔ normalizedRating r' ∈ S := by
    intro r'
    rw [ratingPasses, hactive]
    simp
  refine ⟨?_, ?_, ?_⟩
  · intro hmem
    rw [filter_reviews_eq_filter, List.mem_filter] at hmem
    have := hmem.2
    rw [reviewPasses, Bool.and_eq_true] at this
    exact (hrating r).mp this.1
  · intro hnone hnotin hmem
    rw [filter_reviews_eq_filter, List.mem_filter] at hmem
    have := hmem.2
    rw [reviewPasses, Bool.and_eq_true] at this
    have h2 := (hrating r).mp this.1
    rw [normalizedRating, hnone] at h2
    exact hnotin h2
  · rw [filter_reviews_eq_filter, List.mem_filter]
    constructor
    · intro ⟨h1, h2⟩
      rw [reviewPasses, Bool.and_eq_true] at h2
      exact ⟨h1, (hrating r).mp h2.1⟩
    · intro ⟨h1, h2⟩
      refine ⟨h1, ?_⟩
      rw [reviewPasses, Bool.and_eq_true]
      exact ⟨(hrating r).mpr h2, datePasses_none parse r⟩

/-- Claim C3 amended, concrete instance — the record with every field
absent does not survive the rating filter consisting of "FIVE" alone. -/
theorem filter_reviews_rating_filter_instance :
    (["FIVE"] ≠ ([] : List String))
    ∧ (emptyReview ∈ filter_reviews parseStub [emptyReview] none none (some ["FIVE"]) ↔
        emptyReview ∈ [emptyReview] ∧ normalizedRating emptyReview ∈ ["FIVE"]) :=
  ⟨by decide,
   (filter_reviews_rating_filter parseStub [emptyReview] none none ["FIVE"]
      emptyReview (by decide)).2.2⟩

/-- The upper-cased form of a character is never an ASCII lowercase
letter. -/
theorem pyUpperChar_not_lower (c : Char) :
    ¬(97 ≤ (pyUpperChar c).toNat ∧ (pyUpperChar c).toNat ≤ 122) := by
  unfold pyUpperChar
  by_cases h : 97 ≤ c.toNat ∧ c.toNat ≤ 122
  · rw [if_pos h]
    have hv : (c.toNat - 32).isValidChar := Or.inl (by omega)
    have hn : (Char.ofNat (c.toNat - 32)).toNat = c.toNat - 32 := by
      rw [Char.ofNat, dif_pos hv]
      simp only [Char.ofNatAux, Char.toNat, UInt32.toNat, BitVec.toNat_ofNatLt]
    omega
  · rw [if_neg h]
    exact h

/-- The output of the embedded `str.upper` contains no ASCII lowercase
letter. -/
theorem hasLowerAsciiChar_pyUpper (s : String) :
    hasLowerAsciiChar (pyUpper s) = false := by
  rw [hasLowerAsciiChar, pyUpper]
  rw [List.any_eq_false]
  intro c hc
  simp only [List.mem_map] at hc
  obtain ⟨d, _, rfl⟩ := hc
  simp only [Bool.and_eq_true, decide_eq_true_eq, not_and]
  intro h1 h2
  exact pyUpperChar_not_lower d ⟨h1, h2⟩

/-- Claim C10 — only the record's rating is case-normalized before the
membership test, so a supplied rating label containing an ASCII lowercase
letter never equals any record's normalized rating; consequently if every
label of the supplied list contains a lowercase letter, the filter output
is empty. -/
theorem lowercase_rating_label_never_matches (r : Review) (S : List String)
    (s : String) (hs : s ∈ S) (hlow : hasLowerAsciiChar s = true) :
    normalizedRating r ≠ s
    ∧ (S.all hasLowerAsciiChar = true → ∀ (parse : String → Option PyDateTime)
        (reviews : List Review) (year month : Option Int),
        filter_reviews parse reviews year month (some S) = []) := by
  have hne : ∀ r' : Review, ∀ t, hasLowerAsciiChar t = true → normalizedRating r' ≠ t := by
    intro r' t ht heq
    rw [← heq, normalizedRating, hasLowerAsciiChar_pyUpper] at ht
    exact Bool.false_ne_true ht
  refine ⟨hne r s hlow, ?_⟩
  intro hall parse reviews year month
  have hSne : S ≠ [] := by
    intro h
    rw [h] at hs
    exact List.not_mem_nil s hs
  have hactive : starRatingsActive (some S) = true := by
    cases S with
    | nil => exact absurd rfl hSne
    | cons a l => rfl
  rw [filter_reviews_eq_filter]
  rw [List.filter_eq_nil_iff]
  intro r' _
  rw [reviewPasses, Bool.and_eq_true, not_and]
  intro hrat
  rw [ratingPasses, hactive, if_pos rfl] at hrat
  rw [decide_eq_true_eq] at hrat
  simp only [Option.getD_some] at hrat
  have ht := (List.all_eq_true.mp hall) _ hrat
  exact absurd rfl (hne r' (normalizedRating r') ht)

/-- Claim C10, concrete instance — the lowercase label "five" never equals
a normalized rating. -/
theorem lowercase_rating_label_never_matches_instance :
    ("five" ∈ ["five"] ∧ hasLowerAsciiChar "five" = true)
    ∧ normalizedRating emptyReview ≠ "five" :=
  ⟨⟨by decide, by decide⟩,
   (lowercase_rating_label_never_matches emptyReview ["five"] "five"
      (by decide) (by decide)).1⟩

/-! ### Review store lemmas -/

/-- On a well-shaped file the fold step appends exactly the file's
contribution. -/
theorem loadFile_goodShape (acc : List Json) (f : Json) (h : goodShape f = true) :
    loadFile acc f = some (acc ++ fileContribution f) := by
  cases f with
  | obj fields =>
      rw [goodShape] at h
      rw [loadFile, fileContribution]
      cases hl : jLookup fields "reviews" with
      | none => rfl
      | some v =>
          rw [hl] at h
          cases v with
          | arr l => rfl
          | obj fs => exact absurd h (by simp)
          | str s => exact absurd h (by simp)
          | num n => exact absurd h (by simp)
          | bool b => exact absurd h (by simp)
          | null => exact absurd h (by simp)
  | arr l => rfl
  | str s => exact absurd h (by simp [goodShape])
  | num n => exact absurd h (by simp [goodShape])
  | bool b => exact absurd h (by simp [goodShape])
  | null => exact absurd h (by simp [goodShape])

/-- Folding well-shaped files accumulates the concatenation of their
contributions. -/
theorem foldlM_loadFile (files : List Json) (acc : List Json)
    (h : files.all goodShape = true) :
    files.foldlM loadFile acc = some (acc ++ (files.map fileContribution).flatten) := by
  induction files generalizing acc with
  | nil => simp [List.foldlM]
  | cons f rest ih =>
      rw [List.all_cons, Bool.and_eq_true] at h
      rw [List.foldlM]
      rw [loadFile_goodShape acc f h.1]
      simp only [Option.bind_eq_bind, Option.some_bind]
      rw [ih (acc ++ fileContribution f) h.2]
      simp [List.append_assoc]

/-- Claim C6 — load_reviews normalizes each decoded file by the three
shapes (object with a "reviews" list, object without a "reviews" field,
bare list) into one flat accumulated list, returns that list's length, and
the merged records are — as a multiset — independent of the discovery
order of the files. -/
theorem load_reviews_normalizes (files : List Json)
    (h : files.all goodShape = true) :
    load_reviews files =
      some ((files.map fileContribution).flatten,
        ((files.map fileContribution).flatten).length)
    ∧ ∀ files₂ : List Json, files.Perm files₂ →
        ((files.map fileContribution).flatten).Perm
          ((files₂.map fileContribution).flatten) := by
  constructor
  · rw [load_reviews, foldlM_loadFile files [] h]
    rfl
  · intro files₂ hperm
    exact (hperm.map fileContribution).flatten

/-- Claim C6, concrete instance — one object file holding a "reviews"
list and one bare-list file merge into one flat sequence whose length is
returned. -/
theorem load_reviews_normalizes_instance :
    wFiles.all goodShape = true
    ∧ load_reviews wFiles =
        some ((wFiles.map fileContribution).flatten,
          ((wFiles.map fileContribution).flatten).length) :=
  ⟨by decide, (load_reviews_normalizes wFiles (by decide)).1⟩

/-! ### Reporter lemmas -/

/-- Claim C7 — exporting a non-empty name-count mapping writes exactly the
mapping's (name, count) pairs (a permutation, hence the same set of
pairs), with the rows sorted by non-increasing count. -/
theorem export_name_analysis_roundtrip (name_counts : List (String × Nat))
    (h : name_counts ≠ []) :
    export_name_analysis_to_csv name_counts = some (sortedNameCounts name_counts)
    ∧ (sortedNameCounts name_counts).Perm name_counts
    ∧ (sortedNameCounts name_counts).Pairwise (fun a b => b.2 ≤ a.2) := by
  refine ⟨?_, ?_, ?_⟩
  · rw [export_name_analysis_to_csv, if_neg]
    intro hc
    exact h (List.isEmpty_iff.mp hc)
  · exact List.mergeSort_perm name_counts _
  · have hs := @List.sorted_mergeSort (String × Nat)
      (fun a b => decide (b.2 ≤ a.2))
      (fun a b c hab hbc => by
        rw [decide_eq_true_eq] at hab hbc ⊢
        omega)
      (fun a b => by
        rw [Bool.or_eq_true, decide_eq_true_eq, decide_eq_true_eq]
        omega)
      name_counts
    exact hs.imp (fun hab => by rw [decide_eq_true_eq] at hab; exact hab)

/-- Claim C7, concrete instance — a one-entry mapping exports its sorted
rows. -/
theorem export_name_analysis_roundtrip_instance :
    ([("Ann", 2)] ≠ ([] : List (String × Nat)))
    ∧ export_name_analysis_to_csv [("Ann", 2)] = some (sortedNameCounts [("Ann", 2)]) :=
  ⟨by decide, (export_name_analysis_roundtrip [("Ann", 2)] (by decide)).1⟩

/-- Claim C8, counterexample — the review export does not substitute the
empty string for every absent field: a record with no reviewer information
gets "Anonymous" as its reviewer_name. -/
theorem absent_reviewer_name_defaults_anonymous :
    export_reviews_to_csv [emptyReview] = some [buildReviewRow emptyReview]
    ∧ (buildReviewRow emptyReview).reviewer_name = "Anonymous"
    ∧ "Anonymous" ≠ "" :=
  ⟨rfl, rfl, by decide⟩

/-- Claim C8 as amended — for a non-empty record list the export writes
one row per record, in order, with the fixed column set; absent fields
become the empty string except that the reviewer display name defaults to
"Anonymous" and the review identifier falls back from reviewId to name to
the empty string; the optional reply is flattened to its comment text
(empty string when absent). -/
theorem export_reviews_rows (reviews : List Review) (h : reviews ≠ []) :
    export_reviews_to_csv reviews = some (reviews.map buildReviewRow)
    ∧ ∀ r : Review,
        (r.reviewId = none → r.name = none → (buildReviewRow r).review_id = "")
        ∧ (r.reviewId = none → ∀ v, r.name = some v → (buildReviewRow r).review_id = v)
        ∧ ((r.reviewer = none ∨ ∃ rv, r.reviewer = some rv ∧ rv.displayName = none) →
            (buildReviewRow r).reviewer_name = "Anonymous")
        ∧ (r.starRating = none → (buildReviewRow r).star_rating = "")
        ∧ (r.comment = none → (buildReviewRow r).comment = "")
        ∧ (r.createTime = none → (buildReviewRow r).create_time = "")
        ∧ (r.updateTime = none → (buildReviewRow r).update_time = "")
        ∧ ((r.reviewer = none ∨ ∃ rv, r.reviewer = some rv ∧ rv.profilePhotoUrl = none) →
            (buildReviewRow r).reviewer_photo_url = "")
        ∧ (r.reviewReply = none → (buildReviewRow r).review_reply = "")
        ∧ (∀ rep, r.reviewReply = some rep →
            (buildReviewRow r).review_reply = rep.comment.getD "") := by
  constructor
  · rw [export_reviews_to_csv, if_neg]
    intro hc
    exact h (List.isEmpty_iff.mp hc)
  · intro r
    refine ⟨?_, ?_, ?_, ?_, ?_, ?_, ?_, ?_, ?_, ?_⟩
    · intro h1 h2
      simp [buildReviewRow, h1, h2]
    · intro h1 v h2
      simp [buildReviewRow, h1, h2]
    · intro hcase
      rcases hcase with h1 | ⟨rv, h1, h2⟩
      · simp [buildReviewRow, h1]
      · simp [buildReviewRow, h1, h2]
    · intro h1
      simp [buildReviewRow, h1]
    · intro h1
      simp [buildReviewRow, h1]
    · intro h1
      simp [buildReviewRow, h1]
    · intro h1
      simp [buildReviewRow, h1]
    · intro hcase
      rcases hcase with h1 | ⟨rv, h1, h2⟩
      · simp [buildReviewRow, h1]
      · simp [buildReviewRow, h1, h2]
    · intro h1
      simp [buildReviewRow, h1]
    · intro rep h1
      simp [buildReviewRow, h1]

/-- Claim C8 amended, concrete instance — exporting the single
all-absent record produces its one row. -/
theorem export_reviews_rows_instance :
    ([emptyReview] ≠ ([] : List Review))
    ∧ export_reviews_to_csv [emptyReview] = some ([emptyReview].map buildReviewRow) :=
  ⟨by decide, (export_reviews_rows [emptyReview] (by decide)).1⟩

/-! ### Name extractor lemmas -/

/-- Inserting an identifier updates the looked-up set at the inserted key
and leaves every other key unchanged. -/
theorem lookupSet_addId (tbl : List (String × Finset String))
    (key review_id n : String) :
    lookupSet (addId tbl key review_id) n =
      if n = key then insert review_id (lookupSet tbl key) else lookupSet tbl n := by
  induction tbl with
  | nil =>
      by_cases h : n = key
      · subst h
        simp [addId, lookupSet]
      · have h2 : ¬(key = n) := fun hh => h hh.symm
        simp [addId, lookupSet, h, h2]
  | cons p rest ih =>
      obtain ⟨k, s⟩ := p
      by_cases hk : k = key
      · subst hk
        by_cases hn : n = k
        · subst hn
          simp [addId, lookupSet]
        · have hn2 : ¬(k = n) := fun hh => hn hh.symm
          simp [addId, lookupSet, hn, hn2]
      · by_cases hn : n = k
        · have hnkey : ¬(n = key) := by rw [hn]; exact hk
          have hkn : k = n := hn.symm
          simp [addId, hk, lookupSet, hkn, hnkey]
        · have hkn : ¬(k = n) := fun hh => hn hh.symm
          simp [addId, hk, lookupSet, hkn, ih]

/-- Processing a span list inserts this review's identifier into exactly
the names the spans yield. -/
theorem lookupSet_processEnts (ents : List Ent)
    (review_id n : String) (tbl : List (String × Finset String)) :
    lookupSet (processEnts review_id ents tbl) n =
      if entsYield ents n then insert review_id (lookupSet tbl n)
      else lookupSet tbl n := by
  induction ents generalizing tbl with
  | nil => simp [processEnts, entsYield]
  | cons e rest ih =>
      have hstep : processEnts review_id (e :: rest) tbl =
          processEnts review_id rest
            (if e.label_ = "PERSON" then addId tbl (pyStrip e.text) review_id else tbl) := by
        rw [processEnts, List.foldl_cons]
        by_cases hp : e.label_ = "PERSON"
        · rw [if_pos hp]
          rfl
        · rw [if_neg hp]
          rfl
      have hyield : entsYield (e :: rest) n =
          ((decide (e.label_ = "PERSON") && decide (pyStrip e.text = n)) || entsYield rest n) := by
        rw [entsYield, List.any_cons]
        rfl
      rw [hstep, hyield]
      by_cases hp : e.label_ = "PERSON"
      · rw [if_pos hp, ih, lookupSet_addId]
        by_cases ht : pyStrip e.text = n
        · simp [hp, ht, Finset.insert_idem]
        · have htn : ¬(n = pyStrip e.text) := fun hh => ht hh.symm
          simp [hp, ht, htn]
      · rw [if_neg hp, ih]
        simp [hp]

/-- Processing one review inserts its resolved identifier into exactly the
names its comment yields. -/
theorem lookupSet_processReview (f : String → List Ent)
    (tbl : List (String × Finset String)) (r : Review) (n : String) :
    lookupSet (processReview f tbl r) n =
      if yieldsName f n r then insert (resolveReviewId r) (lookupSet tbl n)
      else lookupSet tbl n := by
  rw [processReview, yieldsName]
  by_cases hc : getComment r = ""
  · rw [if_pos hc]
    simp [hc]
  · rw [if_neg hc, lookupSet_processEnts]
    have hd : decide (getComment r ≠ "") = true := by simp [hc]
    rw [hd, Bool.true_and]

/-- Folding the review loop accumulates, at each name, the set of distinct
resolved identifiers of the contributing reviews. -/
theorem lookupSet_foldl (f : String → List Ent) (l : List Review)
    (tbl : List (String × Finset String)) (n : String) :
    lookupSet (l.foldl (fun t r => processReview f t r) tbl) n =
      lookupSet tbl n ∪ idSet f n l := by
  induction l generalizing tbl with
  | nil => simp [idSet]
  | cons r rest ih =>
      rw [List.foldl_cons, ih, lookupSet_processReview]
      have hset : idSet f n (r :: rest) =
          if yieldsName f n r then insert (resolveReviewId r) (idSet f n rest)
          else idSet f n rest := by
        rw [idSet, idSet, List.filter_cons]
        by_cases hy : yieldsName f n r = true
        · rw [if_pos hy, if_pos hy, List.map_cons, List.toFinset_cons]
        · rw [if_neg hy, if_neg hy]
      rw [hset]
      by_cases hy : yieldsName f n r = true
      · rw [if_pos hy, if_pos hy, Finset.insert_union, Finset.union_insert]
      · rw [if_neg hy, if_neg hy]

/-- Keys of the table after an insertion: unchanged when present,
appended when fresh. -/
theorem tableKeys_addId (tbl : List (String × Finset String))
    (key review_id : String) :
    tableKeys (addId tbl key review_id) =
      if key ∈ tableKeys tbl then tableKeys tbl else tableKeys tbl ++ [key] := by
  induction tbl with
  | nil => simp [addId, tableKeys]
  | cons p rest ih =>
      obtain ⟨k, s⟩ := p
      by_cases hk : k = key
      · subst hk
        simp [addId, tableKeys]
      · have hne : ¬(key = k) := fun hh => hk hh.symm
        rw [addId, if_neg hk]
        by_cases hin : key ∈ tableKeys rest
        · have hin2 : key ∈ tableKeys ((k, s) :: rest) := by
            simp only [tableKeys, List.map_cons, List.mem_cons]
            exact Or.inr hin
          rw [if_pos hin2]
          simp only [tableKeys, List.map_cons] at ih hin ⊢
          rw [ih, if_pos hin]
        · have hin2 : key ∉ tableKeys ((k, s) :: rest) := by
            simp only [tableKeys, List.map_cons, List.mem_cons]
            rintro (hh | hh)
            · exact hne hh
            · exact hin hh
          rw [if_neg hin2]
          simp only [tableKeys, List.map_cons] at ih hin ⊢
          rw [ih, if_neg hin, List.cons_append]

/-- Insertion preserves distinctness of the table's keys. -/
theorem nodup_addId (tbl : List (String × Finset String))
    (key review_id : String) (h : (tableKeys tbl).Nodup) :
    (tableKeys (addId tbl key review_id)).Nodup := by
  rw [tableKeys_addId]
  by_cases hin : key ∈ tableKeys tbl
  · rw [if_pos hin]
    exact h
  · rw [if_neg hin]
    rw [List.nodup_append]
    exact ⟨h, List.nodup_singleton key, by simpa using hin⟩

/-- Processing a span list preserves distinctness of the keys. -/
theorem nodup_processEnts (ents : List Ent) (review_id : String)
    (tbl : List (String × Finset String)) (h : (tableKeys tbl).Nodup) :
    (tableKeys (processEnts review_id ents tbl)).Nodup := by
  induction ents generalizing tbl with
  | nil => exact h
  | cons e rest ih =>
      rw [processEnts, List.foldl_cons]
      by_cases hp : e.label_ = "PERSON"
      · rw [if_pos hp]
        exact ih _ (nodup_addId tbl _ review_id h)
      · rw [if_neg hp]
        exact ih tbl h

/-- Processing one review preserves distinctness of the keys. -/
theorem nodup_processReview (f : String → List Ent)
    (tbl : List (String × Finset String)) (r : Review)
    (h : (tableKeys tbl).Nodup) :
    (tableKeys (processReview f tbl r)).Nodup := by
  rw [processReview]
  by_cases hc : getComment r = ""
  · rw [if_pos hc]
    exact h
  · rw [if_neg hc]
    exact nodup_processEnts _ _ tbl h

/-- The review loop preserves distinctness of the keys. -/
theorem nodup_foldl (f : String → List Ent) (l : List Review)
    (tbl : List (String × Finset String)) (h : (tableKeys tbl).Nodup) :
    (tableKeys (l.foldl (fun t r => processReview f t r) tbl)).Nodup := by
  induction l generalizing tbl with
  | nil => exact h
  | cons r rest ih =>
      rw [List.foldl_cons]
      exact ih _ (nodup_processReview f tbl r h)

/-- With distinct keys, a pair of the table is what lookup returns at its
key. -/
theorem lookupSet_of_mem (tbl : List (String × Finset String))
    (n : String) (s : Finset String) (hnd : (tableKeys tbl).Nodup)
    (hmem : (n, s) ∈ tbl) : lookupSet tbl n = s := by
  induction tbl with
  | nil => exact absurd hmem (List.not_mem_nil _)
  | cons p rest ih =>
      obtain ⟨k, t⟩ := p
      rw [tableKeys, List.map_cons, List.nodup_cons] at hnd
      rcases List.mem_cons.mp hmem with heq | htail
      · injection heq with h1 h2
        rw [lookupSet, ← h1, if_pos rfl]
        exact h2.symm
      · have hn_in : n ∈ List.map Prod.fst rest :=
          List.mem_map.mpr ⟨(n, s), htail, rfl⟩
        have hkn : ¬(k = n) := by
          intro hk
          rw [hk] at hnd
          exact absurd hn_in hnd.1
        rw [lookupSet, if_neg hkn]
        exact ih hnd.2 htail

/-- Claim C2 — every entry of the mapping returned by
extract_person_names counts the distinct resolved review identifiers
(name field, else reviewId field, else "unknown") of the reviews whose
comment yielded that name as a PERSON-labelled span; a name repeated in
one review counts once, and every count is at most the number of input
reviews. -/
theorem extract_person_names_counts (f : String → List Ent)
    (reviews : List Review) (key : String) (cnt : Nat)
    (h : (key, cnt) ∈ extract_person_names (some f) reviews) :
    cnt = (idSet f key reviews).card ∧ cnt ≤ reviews.length := by
  rw [extract_person_names] at h
  rcases List.mem_map.mp h with ⟨p, hp, heq⟩
  injection heq with h1 h2
  have hnd := nodup_foldl f reviews [] (by simp [tableKeys])
  have hlook := lookupSet_of_mem _ p.1 p.2 hnd hp
  have hfold := lookupSet_foldl f reviews [] p.1
  rw [hlook] at hfold
  have hsets : p.2 = idSet f p.1 reviews := by
    rw [hfold, lookupSet]
    exact (Finset.empty_union _).symm
  subst h1
  subst h2
  constructor
  · rw [hsets]
  · rw [hsets, idSet]
    calc ((reviews.filter (yieldsName f p.1)).map resolveReviewId).toFinset.card
        ≤ ((reviews.filter (yieldsName f p.1)).map resolveReviewId).length :=
          List.toFinset_card_le _
      _ = (reviews.filter (yieldsName f p.1)).length := List.length_map _ _
      _ ≤ reviews.length := List.length_filter_le _ _

/-- Claim C2, concrete instance — one review with comment "Thanks John!"
and reviewId "r1": the stub engine yields "John", counted in exactly one
review. -/
theorem extract_person_names_counts_instance :
    (("John", 1) ∈ extract_person_names (some nlpStub) [wReview])
    ∧ 1 ≤ [wReview].length :=
  ⟨by decide,
   (extract_person_names_counts nlpStub [wReview] "John" 1 (by decide)).2⟩

/-- Claim C9 — when the recognition engine is not loaded,
extract_person_names returns the empty mapping for every input, without
failing. -/
theorem extract_person_names_engine_missing (reviews : List Review) :
    extract_person_names none reviews = [] := rfl

end GReviewSignals
